import Mathlib

/-!
# Verification of the shaka-player offline storage engine

This file gives a shallow embedding, in Lean 4, of the parts of the
shaka-player repository that the specification talks about:

* `shaka.util.BufferUtils` (`src/lib/util/buffer_utils.js`) is embedded
  directly from its source: buffers are modelled as lists of bytes with an
  explicit identity (JavaScript object identity of the underlying
  `ArrayBuffer`), and views carry a byte offset and byte length.

* `shaka.offline.Storage` and `shaka.offline.OfflineScheme` are exercised by
  the unit tests in the repository but their implementation files are not part
  of the source tree given here; those components are modelled from the
  specification (each such definition carries a doc comment starting with
  `Modelled from the spec:`).
-/

namespace Shaka

/-! ## BufferUtils (embedded from src/lib/util/buffer_utils.js) -/

/-- A JavaScript `ArrayBuffer`: a byte array together with an `id` standing
for the object identity of the buffer (two `ArrayBuffer` objects are `==` in
JavaScript exactly when they are the same object). Bytes are `Nat`s. -/
structure ArrayBufferM where
  id : Nat
  data : List Nat
deriving DecidableEq, Repr

/-- The little-endian byte rendering of one typed-array element occupying
`k` bytes: how a stored element value appears in the underlying buffer. -/
def leBytes : Nat → Nat → List Nat
  | 0, _ => []
  | k + 1, v => v % 256 :: leBytes k (v / 256)

/-- A JavaScript `BufferSource` as accepted by `BufferUtils`: an
`ArrayBuffer` itself, a byte-level typed-array view (`Uint8Array` and the
other one-byte-element array kinds, whose `new Uint8Array` conversion
coincides with the underlying bytes), a wider unsigned-integer typed-array
view carrying its element values (`bytesPerElem ≥ 2`, e.g. `Uint16Array`),
or a `DataView`. Each view records its underlying buffer, byte offset and
extent. -/
inductive BufferSource where
  | arrayBuffer (buf : ArrayBufferM)
  | uint8View (buf : ArrayBufferM) (byteOffset byteLength : Nat)
  | typedView (buf : ArrayBufferM) (byteOffset bytesPerElem : Nat)
      (elems : List Nat)
  | dataView (buf : ArrayBufferM) (byteOffset byteLength : Nat)
deriving DecidableEq, Repr

namespace BufferSource

/-- `x.byteLength` of a `BufferSource`. -/
def byteLength : BufferSource → Nat
  | .arrayBuffer buf => buf.data.length
  | .uint8View _ _ len => len
  | .typedView _ _ k elems => k * elems.length
  | .dataView _ _ len => len

/-- `(x.byteOffset || 0)` as used in `BufferUtils.equal`: an `ArrayBuffer`
has no `byteOffset` field, so it defaults to `0`. -/
def byteOffsetOrZero : BufferSource → Nat
  | .arrayBuffer _ => 0
  | .uint8View _ off _ => off
  | .typedView _ off _ _ => off
  | .dataView _ off _ => off

/-- The underlying bytes visible through the source: the whole buffer for
an `ArrayBuffer`, and the `byteLength` bytes starting at `byteOffset` for
every view. This is the byte content the specification talks about. -/
def bytesView : BufferSource → List Nat
  | .arrayBuffer buf => buf.data
  | .uint8View buf off len => (buf.data.drop off).take len
  | .typedView buf off k elems => (buf.data.drop off).take (k * elems.length)
  | .dataView buf off len => (buf.data.drop off).take len

/-- The byte sequence `new Uint8Array(x)` exposes, per JavaScript: the
whole buffer for an `ArrayBuffer`; the viewed bytes for a `Uint8Array`;
one `ToUint8`-converted entry per element (`v % 256`) for a wider typed
array — not its underlying bytes; and an empty array for a `DataView`
(array-like without a `length` property). -/
def uint8Array : BufferSource → List Nat
  | .arrayBuffer buf => buf.data
  | .uint8View buf off len => (buf.data.drop off).take len
  | .typedView _ _ _ elems => elems.map fun v => v % 256
  | .dataView _ _ _ => []

/-- Well-formedness of a source on a real JavaScript heap: views stay in
bounds, and a wider typed array's elements are exactly the little-endian
reading of the bytes it covers. -/
def WF : BufferSource → Prop
  | .arrayBuffer _ => True
  | .uint8View buf off len => off + len ≤ buf.data.length
  | .typedView buf off k elems =>
      2 ≤ k ∧ off + k * elems.length ≤ buf.data.length ∧
        (buf.data.drop off).take (k * elems.length) = elems.flatMap (leBytes k)
  | .dataView buf off len => off + len ≤ buf.data.length

end BufferSource

instance : DecidablePred BufferSource.WF := fun v =>
  match v with
  | .arrayBuffer _ => isTrue True.intro
  | .uint8View buf off len =>
    inferInstanceAs (Decidable (off + len ≤ buf.data.length))
  | .typedView buf off k elems =>
    inferInstanceAs (Decidable (2 ≤ k ∧ off + k * elems.length ≤ buf.data.length ∧
      (buf.data.drop off).take (k * elems.length) = elems.flatMap (leBytes k)))
  | .dataView buf off len =>
    inferInstanceAs (Decidable (off + len ≤ buf.data.length))

/-- The byte-level sources: `ArrayBuffer`s and one-byte-element views, on
which `new Uint8Array(x)` reads exactly the underlying viewed bytes. -/
def ByteLevel : BufferSource → Prop
  | .arrayBuffer _ => True
  | .uint8View _ _ _ => True
  | .typedView _ _ _ _ => False
  | .dataView _ _ _ => False

instance : DecidablePred ByteLevel := fun v =>
  match v with
  | .arrayBuffer _ => isTrue True.intro
  | .uint8View _ _ _ => isTrue True.intro
  | .typedView _ _ _ _ => isFalse fun h => h
  | .dataView _ _ _ => isFalse fun h => h

/-- Byte-level restriction lifted to a nullable source. -/
def ByteLevelSrc (o : Option BufferSource) : Prop :=
  ∀ v, o = some v → ByteLevel v

/-- `shaka.util.BufferUtils.unsafeGetArrayBuffer`: the view itself if it is an
`ArrayBuffer`, otherwise its underlying `view.buffer`. -/
def unsafeGetArrayBuffer : BufferSource → ArrayBufferM
  | .arrayBuffer buf => buf
  | .uint8View buf _ _ => buf
  | .typedView buf _ _ _ => buf
  | .dataView buf _ _ => buf

/-- `shaka.util.BufferUtils.equal` on nullable buffer sources, translated
clause by clause from the source: both null, one null, `byteLength`
mismatch, the same-buffer/same-offset fast path, then the loop over
`range(arr1.byteLength)` comparing `new Uint8Array(arr1)` with
`new Uint8Array(arr2)` entrywise (out-of-range reads are `undefined` on
both sides and `undefined != undefined` is false, which
`Option.none == Option.none` mirrors). -/
def bufferEqual : Option BufferSource → Option BufferSource → Bool
  | none, none => true
  | none, some _ => false
  | some _, none => false
  | some a, some b =>
    if a.byteLength != b.byteLength then false
    else if (unsafeGetArrayBuffer a).id == (unsafeGetArrayBuffer b).id &&
        a.byteOffsetOrZero == b.byteOffsetOrZero then true
    else (List.range a.byteLength).all fun i =>
      a.uint8Array.get? i == b.uint8Array.get? i

/-- Result of `BufferUtils.toArrayBuffer`: either the very same underlying
`ArrayBuffer` object (`reused`), or a newly allocated buffer holding a copy
of the given bytes (`fresh`). -/
inductive ABResult where
  | reused (buf : ArrayBufferM)
  | fresh (data : List Nat)
deriving DecidableEq, Repr

/-- The byte contents of a `toArrayBuffer` result. -/
def ABResult.bytes : ABResult → List Nat
  | .reused buf => buf.data
  | .fresh data => data

/-- `shaka.util.BufferUtils.toArrayBuffer`, translated from the source: an
`ArrayBuffer` is returned as-is; a view with `byteOffset == 0` whose
`byteLength` equals the whole buffer's `byteLength` returns `view.buffer`;
otherwise `new Uint8Array(view).buffer` allocates a fresh buffer holding
exactly what `new Uint8Array(view)` produces — the viewed bytes for a
`Uint8Array`, converted elements for a wider typed array, nothing for a
`DataView`. -/
def toArrayBuffer : BufferSource → ABResult
  | .arrayBuffer buf => .reused buf
  | .uint8View buf off len =>
    if off == 0 && len == buf.data.length then .reused buf
    else .fresh ((buf.data.drop off).take len)
  | .typedView buf off k elems =>
    if off == 0 && k * elems.length == buf.data.length then .reused buf
    else .fresh (elems.map fun v => v % 256)
  | .dataView buf off len =>
    if off == 0 && len == buf.data.length then .reused buf
    else .fresh []

/-- Heap consistency for a pair of nullable sources: if the two underlying
buffers have the same object identity then they are the same buffer. Any
pair of values read off an actual JavaScript heap satisfies this. -/
def HeapOK (a b : Option BufferSource) : Prop :=
  ∀ va vb, a = some va → b = some vb →
    (unsafeGetArrayBuffer va).id = (unsafeGetArrayBuffer vb).id →
    unsafeGetArrayBuffer va = unsafeGetArrayBuffer vb

/-- The specification's characterisation of `BufferUtils.equal`: both sides
null, or both non-null with equal byte length and equal visible bytes. -/
def EqualSpec (a b : Option BufferSource) : Prop :=
  (a = none ∧ b = none) ∨
    ∃ va vb, a = some va ∧ b = some vb ∧
      va.byteLength = vb.byteLength ∧ va.bytesView = vb.bytesView

/-! ## Decimal numerals (for the offline URI scheme) -/

/-- The character for a single decimal digit `d < 10`. -/
def digitChar (d : Nat) : Char := Char.ofNat (48 + d)

/-- The value of a decimal digit character, `none` for non-digits. -/
def digitVal? (c : Char) : Option Nat :=
  if 48 ≤ c.toNat ∧ c.toNat ≤ 57 then some (c.toNat - 48) else none

/-- Decimal rendering of a natural number, most significant digit first.
Fuel-based so that it reduces in the kernel; `natChars` supplies enough
fuel. -/
def natCharsAux : Nat → Nat → List Char
  | 0, _ => []
  | fuel + 1, n =>
    if n < 10 then [digitChar n]
    else natCharsAux fuel (n / 10) ++ [digitChar (n % 10)]

/-- Canonical decimal rendering of a natural number (no leading zeros). -/
def natChars (n : Nat) : List Char := natCharsAux (n + 1) n

/-- Parse a run of decimal digits, continuing from an accumulated value;
`none` on the first non-digit character. -/
def parseDigitsFrom (acc : Nat) : List Char → Option Nat
  | [] => some acc
  | c :: cs =>
    match digitVal? c with
    | some d => parseDigitsFrom (acc * 10 + d) cs
    | none => none

/-- Parse a non-empty run of decimal digits to a natural number. -/
def parseDigits : List Char → Option Nat
  | [] => none
  | c :: cs => parseDigitsFrom 0 (c :: cs)

/-- Strip an expected leading character sequence: `chopHead s h` returns the
rest of `s` after `h`, or `none` if `s` does not start with `h`. -/
def chopHead (s : List Char) : List Char → Option (List Char)
  | [] => some s
  | p :: ps =>
    match s with
    | [] => none
    | c :: cs => if c = p then chopHead cs ps else none

/-! ## OfflineScheme (URI scheme codec)

The implementation of `shaka.offline.OfflineScheme` is not part of the given
source tree (only its unit tests are), so the codec is modelled from the
spec: a bidirectional mapping between numeric record ids and offline URIs,
with distinct URI shapes for manifests and segments, where decoding inverts
encoding exactly on well-formed URIs and returns `null` on anything else. -/

/-- Modelled from the spec: the leading characters of a manifest offline URI
(`shaka.offline.OfflineScheme.manifestIdToUri` is missing from src). -/
def manifestScheme : List Char := "offline:manifest/".data

/-- Modelled from the spec: the leading characters of a segment offline URI
(`shaka.offline.OfflineScheme.segmentIdToUri` is missing from src). -/
def segmentScheme : List Char := "offline:segment/".data

/-- Modelled from the spec: `OfflineScheme.manifestIdToUri` — encode a
manifest record id as an externally visible offline URI. -/
def manifestIdToUri (id : Nat) : String := ⟨manifestScheme ++ natChars id⟩

/-- Modelled from the spec: `OfflineScheme.segmentIdToUri` — encode a
segment record id as an externally visible offline URI. -/
def segmentIdToUri (id : Nat) : String := ⟨segmentScheme ++ natChars id⟩

/-- Decode a URI against a given scheme head: the rest must be a canonical
(non-empty, no leading zero) decimal numeral. Returns `none` otherwise. -/
def uriToId (scheme : List Char) (uri : String) : Option Nat :=
  (chopHead uri.data scheme).bind fun rest =>
    (parseDigits rest).bind fun n =>
      if natChars n = rest then some n else none

/-- Modelled from the spec: `OfflineScheme.uriToManifestId` — decode an
offline URI to a manifest id, `none` if malformed. -/
def uriToManifestId (uri : String) : Option Nat := uriToId manifestScheme uri

/-- Modelled from the spec: `OfflineScheme.uriToSegmentId` — decode an
offline URI to a segment id, `none` if malformed. -/
def uriToSegmentId (uri : String) : Option Nat := uriToId segmentScheme uri

/-! ## Data model (spec section 3)

`shaka.offline.Storage` and the storage-engine records are exercised by the
unit tests in `src/unnamed/part_000` but their implementation is not in the
given source tree; the record types below are modelled from the spec's data
model section. -/

/-- Modelled from the spec: the DRM metadata captured at store time
(`shakaExtern.DrmInfo` as consumed by the missing `shaka.offline.Storage`). -/
structure DrmInfo where
  keySystem : String
  licenseServerUri : String
  persistentStateRequired : Bool
  distinctiveIdentifierRequired : Bool
  audioRobustness : String
  videoRobustness : String
deriving DecidableEq, Repr

/-- Modelled from the spec: the DRM context collaborator interface consumed
by `store` (`getDrmInfo`, `getSessionIds`, `getExpiration`); `none` for
`expiration` stands for an unbounded expiration. -/
structure DrmCtx where
  drmInfo : Option DrmInfo
  sessionIds : List String
  expiration : Option Nat
deriving DecidableEq, Repr

/-- Modelled from the spec: one entry of a `StreamRecord`'s segment list
(`{startTime, endTime, uri}` referencing a `SegmentRecord` by URI). -/
structure SegmentEntry where
  startTime : Nat
  endTime : Nat
  uri : String
deriving DecidableEq, Repr

/-- Modelled from the spec: a persisted elementary stream
(`initSegmentUri` nullable, `segments` ordered by start time). -/
structure StreamRecord where
  initSegmentUri : Option String
  segments : List SegmentEntry
deriving DecidableEq, Repr

/-- Modelled from the spec: a time-bounded section of the presentation with
one `StreamRecord` per persisted track. -/
structure PeriodRecord where
  streams : List StreamRecord
deriving DecidableEq, Repr

/-- Modelled from the spec: the persisted unit of stored content
(`ManifestRecord`). App metadata is an opaque key/value map. -/
structure ManifestRecord where
  originalUri : String
  duration : Nat
  periods : List PeriodRecord
  sessionIds : List String
  drmInfo : Option DrmInfo
  appMetadata : List (String × String)
  expiration : Option Nat
deriving DecidableEq, Repr

/-- Modelled from the spec: raw bytes of one stored segment, recorded here
by their byte count (the only observation any claim makes of them). -/
structure SegmentRecord where
  dataSize : Nat
deriving DecidableEq, Repr

/-- Modelled from the spec: the key-addressed storage-engine state — two
id-keyed tables plus the engine-assigned next ids. -/
structure Engine where
  manifests : List (Nat × ManifestRecord)
  segments : List (Nat × SegmentRecord)
  nextManifestId : Nat
  nextSegmentId : Nat
deriving DecidableEq, Repr

/-- Key-addressed lookup in an id-keyed table. -/
def lookupRec {α : Type} : List (Nat × α) → Nat → Option α
  | [], _ => none
  | p :: ps, i => if p.1 = i then some p.2 else lookupRec ps i

/-- Modelled from the spec: `IStorageEngine.getManifest`. -/
def getManifestRec (e : Engine) (id : Nat) : Option ManifestRecord :=
  lookupRec e.manifests id

/-- Modelled from the spec: `IStorageEngine.getSegment`. -/
def getSegmentRec (e : Engine) (id : Nat) : Option SegmentRecord :=
  lookupRec e.segments id

/-- Modelled from the spec: `IStorageEngine.removeSegment` with the "not
found is not an error" contract the removal engine relies on. -/
def engineRemoveSegment (e : Engine) (id : Nat) : Engine :=
  { e with segments := e.segments.filter fun p => p.1 != id }

/-- Modelled from the spec: `IStorageEngine.removeManifest` with the same
tolerant delete contract. -/
def engineRemoveManifest (e : Engine) (id : Nat) : Engine :=
  { e with manifests := e.manifests.filter fun p => p.1 != id }

/-- Modelled from the spec: the manager state — the shared storage-engine
handle plus the explicit single-flight "a store is in progress" flag. -/
structure MgrState where
  engine : Engine
  inProgress : Bool
deriving DecidableEq, Repr

/-- Modelled from the spec: the error taxonomy of the storage manager
(spec section 7). -/
inductive SError where
  | storeAlreadyInProgress
  | cannotStoreLiveOffline
  | noInitDataForOffline
  | storageNotSupported
  | operationAborted
  | requestedItemNotFound (uri : String)
  | malformedOfflineUri (uri : String)
deriving DecidableEq, Repr

/-- Modelled from the spec: the `StoredContentDescriptor` returned to
callers and passed to the progress callback. The size is rational because
running sizes mix exact byte counts with bitrate-derived estimates. -/
structure StoredContent where
  offlineUri : String
  originalManifestUri : String
  duration : Nat
  size : ℚ
  expiration : Option Nat
  appMetadata : List (String × String)
deriving DecidableEq, Repr

/-! ## Store pipeline (spec sections 4.1, 4.3, 4.4, 5) -/

/-- Modelled from the spec: one segment reference of the source manifest
(`shaka.media.SegmentReference`: start/end time, fetch URI, and an optional
explicit byte range `startByte..endByte`, `endByte = none` when unknown). -/
structure SegRef where
  startTime : Nat
  endTime : Nat
  uri : String
  startByte : Nat
  endByte : Option Nat
deriving DecidableEq, Repr

/-- Modelled from the spec: one selected elementary stream to persist: an
optional init segment followed by media segments in timeline order. -/
structure StreamInput where
  contentType : String
  initSegment : Option SegRef
  segments : List SegRef
deriving DecidableEq, Repr

/-- Modelled from the spec: the source manifest as consumed by `store` —
presentation duration, liveness, manifest-wide average bandwidth in bits
per second (seeding size estimates), and the selected streams (the output
of track selection; single-period content). -/
structure ManifestInput where
  duration : Nat
  isLive : Bool
  bandwidth : Nat
  streams : List StreamInput
deriving DecidableEq, Repr

/-- Modelled from the spec: the whole `store(originalUri, appMetadata)` input
including the loaded manifest and the DRM context collaborator. -/
structure StoreInput where
  originalUri : String
  appMetadata : List (String × String)
  manifest : ManifestInput
  drm : DrmCtx
deriving DecidableEq, Repr

/-- Modelled from the spec: the manager configuration recognised by
`configure` (the callbacks themselves live outside the model: progress
invocations are returned as a list of events). -/
structure Config where
  usePersistentLicense : Bool
deriving DecidableEq, Repr

/-- Modelled from the spec: one invocation of the progress callback —
the descriptor snapshot and the fraction `accumulated / estimatedTotal`
clamped to at most 1. -/
structure ProgressEvent where
  content : StoredContent
  percent : ℚ
deriving DecidableEq, Repr

/-- The download sequence of one stream: init segment first if present,
then the media segments in order. -/
def streamRefs (s : StreamInput) : List SegRef :=
  s.initSegment.toList ++ s.segments

/-- All segment references of the manifest, stream-major. -/
def allRefs (m : ManifestInput) : List SegRef :=
  m.streams.flatMap streamRefs

/-- The exact size, in bytes, of a segment with an explicit byte range
(`endByte - startByte + 1`), and `0` when no byte range is given. -/
def exactSize (r : SegRef) : ℚ :=
  match r.endByte with
  | some e => (e : ℚ) + 1 - (r.startByte : ℚ)
  | none => 0

/-- Modelled from the spec: the a-priori size of a segment reference — the
exact figure when an explicit byte range is given, otherwise a linear
extrapolation `bytesPerSecond * duration` from the average bitrate. -/
def refSize (bytesPerSecond : ℚ) (r : SegRef) : ℚ :=
  match r.endByte with
  | some e => (e : ℚ) + 1 - (r.startByte : ℚ)
  | none => bytesPerSecond * ((r.endTime : ℚ) - (r.startTime : ℚ))

/-- Modelled from the spec: the estimated total size, precomputed once at
the start of the download by summing `refSize` over every reference. -/
def estimatedTotal (bps : ℚ) (m : ManifestInput) : ℚ :=
  ((allRefs m).map (refSize bps)).sum

/-- Modelled from the spec: a valid download schedule — an interleaving of
the per-stream reference sequences that keeps each stream's own order
(streams of different content types download concurrently, each stream's
segments strictly sequentially). -/
inductive IsSchedule : List (List SegRef) → List SegRef → Prop where
  | done (ls : List (List SegRef)) (h : ∀ l ∈ ls, l = []) : IsSchedule ls []
  | step (ls : List (List SegRef)) (i : Nat) (x : SegRef)
      (rest : List SegRef) (out : List SegRef)
      (hget : ls.get? i = some (x :: rest))
      (htail : IsSchedule (ls.set i rest) out) :
      IsSchedule ls (x :: out)

/-- Modelled from the spec: the running descriptor size after a prefix of
the schedule has completed — actual downloaded bytes for completed
segments plus the exact byte-range sizes still known to be pending. -/
def runningSize (net : String → Nat) (done todo : List SegRef) : ℚ :=
  (done.map fun r => ((net r.uri : ℚ))).sum + (todo.map exactSize).sum

/-- Clamp a progress fraction to at most 1. -/
def clampAtOne (q : ℚ) : ℚ := if 1 ≤ q then 1 else q

/-- Modelled from the spec: the sequence of progress-callback invocations
for a schedule: after every completed segment, the descriptor snapshot
(with the current running size) and `accumulated / estimatedTotal` clamped
to at most 1 (spec section 4.3). -/
def progressEvents (bps : ℚ) (net : String → Nat) (total : ℚ)
    (mkContent : ℚ → StoredContent) (sched : List SegRef) :
    List ProgressEvent :=
  (List.range sched.length).map fun k =>
    { content := mkContent (runningSize net (sched.take (k + 1)) (sched.drop (k + 1)))
      percent := clampAtOne (((sched.take (k + 1)).map (refSize bps)).sum / total) }

/-- Commit all downloaded segment data: one `SegmentRecord` per reference,
with engine-assigned sequential ids (stream-major; the spec leaves the id
assignment order to the engine), returning the updated engine and the id
granted to each stream's references. -/
def putSegments (e : Engine) (refs : List SegRef) (net : String → Nat) : Engine :=
  refs.foldl
    (fun acc r =>
      { acc with
        segments := acc.segments ++ [(acc.nextSegmentId, { dataSize := net r.uri })]
        nextSegmentId := acc.nextSegmentId + 1 })
    e

/-- Build the committed `StreamRecord` of one input stream given the first
segment id assigned to this stream's references. -/
def buildStreamRecord (firstId : Nat) (s : StreamInput) : StreamRecord :=
  { initSegmentUri := s.initSegment.map fun _ => segmentIdToUri firstId
    segments :=
      (s.segments.enumFrom (firstId + s.initSegment.toList.length)).map fun p =>
        { startTime := p.2.startTime, endTime := p.2.endTime
          uri := segmentIdToUri p.1 } }

/-- Build the committed stream records of all streams, threading the
engine-assigned segment ids stream-major. -/
def buildStreamRecords (firstId : Nat) : List StreamInput → List StreamRecord
  | [] => []
  | s :: ss =>
    buildStreamRecord firstId s ::
      buildStreamRecords (firstId + (streamRefs s).length) ss

/-- Modelled from the spec: the DRM Binder (spec section 4.4) — record the
reported session ids only when a persistent license was requested; the
key-system metadata is recorded either way. -/
def boundSessionIds (cfg : Config) (drm : DrmCtx) : List String :=
  if cfg.usePersistentLicense then drm.sessionIds else []

/-- Modelled from the spec: the `ManifestRecord` committed by a successful
store: duration taken from the source manifest (not recomputed), DRM
metadata from the DRM Binder, periods built from the downloaded streams. -/
def buildManifestRecord (cfg : Config) (inp : StoreInput) (firstSegId : Nat) :
    ManifestRecord :=
  { originalUri := inp.originalUri
    duration := inp.manifest.duration
    periods := [{ streams := buildStreamRecords firstSegId inp.manifest.streams }]
    sessionIds := boundSessionIds cfg inp.drm
    drmInfo := inp.drm.drmInfo
    appMetadata := inp.appMetadata
    expiration := inp.drm.expiration }

/-- The outcome of a `store` call: the result the caller's promise settles
with, the manager state afterwards, and the progress-callback invocations
issued along the way. -/
structure StoreOutcome where
  result : Except SError StoredContent
  state : MgrState
  events : List ProgressEvent
deriving Repr

/-- Modelled from the spec: does the DRM precondition for `store` fail —
DRM in use, persistent sessions requested, but none established
(`NO_INIT_DATA_FOR_OFFLINE`). -/
def noInitData (cfg : Config) (drm : DrmCtx) : Bool :=
  cfg.usePersistentLicense && drm.drmInfo.isSome && drm.sessionIds.isEmpty

/-- Modelled from the spec: the descriptor snapshot built for the manifest
that will be committed under id `mid`, at a given running size. -/
def mkContent (mid : Nat) (inp : StoreInput) (size : ℚ) : StoredContent :=
  { offlineUri := manifestIdToUri mid
    originalManifestUri := inp.originalUri
    duration := inp.manifest.duration
    size := size
    expiration := inp.drm.expiration
    appMetadata := inp.appMetadata }

/-- The final stored size: the actual downloaded bytes of every segment. -/
def finalSize (inp : StoreInput) (net : String → Nat) : ℚ :=
  ((allRefs inp.manifest).map fun r => ((net r.uri : ℚ))).sum

/-- The bytes-per-second seed derived from the manifest-wide bandwidth. -/
def seedBps (inp : StoreInput) : ℚ := (inp.manifest.bandwidth : ℚ) / 8

/-- Commit a successful store to the engine: every downloaded segment as a
`SegmentRecord`, then the `ManifestRecord` under the next manifest id. -/
def storeEngine (e : Engine) (cfg : Config) (inp : StoreInput)
    (net : String → Nat) : Engine :=
  let e1 := putSegments e (allRefs inp.manifest) net
  { e1 with
    manifests := (e.nextManifestId, buildManifestRecord cfg inp e.nextSegmentId) ::
      e1.manifests
    nextManifestId := e.nextManifestId + 1 }

/-- Modelled from the spec: everything `store` does after it has won the
single-flight check: reject live content, check the DRM precondition,
download every segment of the chosen schedule (reporting progress after
each), commit the segment and manifest records, clear the in-progress flag
and return the content descriptor. `net` is the opaque fetch collaborator,
giving the byte count each URI resolves to; `sched` is the scheduler's
interleaving of the per-stream download sequences. -/
def storeFinish (s : MgrState) (cfg : Config) (inp : StoreInput)
    (net : String → Nat) (sched : List SegRef) : StoreOutcome :=
  if inp.manifest.isLive then
    { result := .error .cannotStoreLiveOffline
      state := { s with inProgress := false }, events := [] }
  else if noInitData cfg inp.drm then
    { result := .error .noInitDataForOffline
      state := { s with inProgress := false }, events := [] }
  else
    { result := .ok (mkContent s.engine.nextManifestId inp (finalSize inp net))
      state := { engine := storeEngine s.engine cfg inp net, inProgress := false }
      events := progressEvents (seedBps inp) net
        (estimatedTotal (seedBps inp) inp.manifest)
        (mkContent s.engine.nextManifestId inp) sched }

/-- Modelled from the spec: `Storage.store` — the single-flight check is
performed synchronously before any suspension point: a second call while a
store is in flight rejects with `STORE_ALREADY_IN_PROGRESS` without side
effects; otherwise the in-progress flag is taken and the pipeline runs. -/
def store (s : MgrState) (cfg : Config) (inp : StoreInput)
    (net : String → Nat) (sched : List SegRef) : StoreOutcome :=
  if s.inProgress then
    { result := .error .storeAlreadyInProgress, state := s, events := [] }
  else storeFinish { s with inProgress := true } cfg inp net sched

/-! ## Removal engine (spec section 4.5) -/

/-- Modelled from the spec: every segment id referenced by a manifest
record — for every period, every stream, the init segment URI (if present)
and every media segment URI, each decoded by the URI scheme codec. -/
def collectSegIds (m : ManifestRecord) : List Nat :=
  m.periods.flatMap fun p =>
    p.streams.flatMap fun st =>
      (st.initSegmentUri.toList ++ st.segments.map (·.uri)).filterMap uriToSegmentId

/-- Modelled from the spec: `Storage.remove` — decode the offline URI
(`MALFORMED_OFFLINE_URI` if undecodable), load the manifest record
(`REQUESTED_ITEM_NOT_FOUND` if absent), delete every referenced segment
with missing segments tolerated silently, then delete the manifest record
itself. -/
def remove (s : MgrState) (offlineUri : String) :
    Except SError Unit × MgrState :=
  match uriToManifestId offlineUri with
  | none => (.error (.malformedOfflineUri offlineUri), s)
  | some mid =>
    match getManifestRec s.engine mid with
    | none => (.error (.requestedItemNotFound offlineUri), s)
    | some record =>
      let e1 := (collectSegIds record).foldl engineRemoveSegment s.engine
      (.ok (), { s with engine := engineRemoveManifest e1 mid })

/-! ## Default track selector (spec section 4.2) -/

/-- Modelled from the spec: a variant track as seen by the track selection
callback (one audio plus one video elementary stream, or either alone). -/
structure Variant where
  id : Nat
  language : String
  bandwidth : Nat
  width : Nat
  height : Nat
  primary : Bool
deriving DecidableEq, Repr

/-- The base language of a language tag: the part before a region subtag. -/
def baseLang (s : String) : String := ⟨s.data.takeWhile fun c => c ≠ '-'⟩

/-- Modelled from the spec: steps 1 and 2 of the default policy — the
chosen language tier (exact-match variants, else base-language matches,
else the primary-flagged variants) together with whether any match was
found at all (`false` selects the full candidate set, with a warning, and
forces the reduction to a single variant). -/
def chooseTier (preferred : String) (tracks : List Variant) :
    List Variant × Bool :=
  let exact := tracks.filter fun t => t.language == preferred
  if !exact.isEmpty then (exact, true)
  else
    let base := tracks.filter fun t => baseLang t.language == baseLang preferred
    if !base.isEmpty then (base, true)
    else
      let prim := tracks.filter fun t => t.primary
      if !prim.isEmpty then (prim, true) else (tracks, false)

/-- Modelled from the spec: the "standard-definition" video height cutoff. -/
def sdCutoff : Nat := 480

/-- Does the tier contain more than one distinct video resolution? -/
def multipleResolutions (tier : List Variant) : Bool :=
  1 < ((tier.map (·.height)).dedup).length

/-- Bandwidth comparison used to order same-resolution candidates. -/
def bwLE (a b : Variant) : Prop := a.bandwidth ≤ b.bandwidth

instance : DecidableRel bwLE := fun a b => Nat.decLe a.bandwidth b.bandwidth

instance : IsTotal Variant bwLE := ⟨fun a b => Nat.le_total a.bandwidth b.bandwidth⟩

instance : IsTrans Variant bwLE := ⟨fun _ _ _ h h' => Nat.le_trans h h'⟩

/-- The largest element of a list of naturals (0 for the empty list). -/
def maxNat : List Nat → Nat
  | [] => 0
  | x :: xs => max x (maxNat xs)

/-- The smallest element of a non-empty list of naturals (0 when empty). -/
def minNat : List Nat → Nat
  | [] => 0
  | [x] => x
  | x :: y :: xs => min x (minNat (y :: xs))

/-- Modelled from the spec: the resolution the default policy aims for —
the largest video height at or below the SD cutoff, preferring
smaller-or-equal over larger, so the smallest available height when none
fits under the cutoff. -/
def targetHeight (tier : List Variant) : Nat :=
  let eligible := tier.filter fun t => t.height ≤ sdCutoff
  if eligible.isEmpty then minNat (tier.map (·.height))
  else maxNat (eligible.map (·.height))

/-- Modelled from the spec: break resolution ties by taking the
subjectively "middle" bandwidth candidate — sort the same-resolution
candidates by bandwidth and keep the one at the midpoint. -/
def middleByBandwidth (l : List Variant) : List Variant :=
  let sorted := l.insertionSort bwLE
  (sorted.drop (sorted.length / 2)).take 1

/-- Modelled from the spec: step 3 of the default policy — reduce a tier to
the single variant at the target height with the middle bandwidth. -/
def selectResolution (tier : List Variant) : List Variant :=
  middleByBandwidth (tier.filter fun t => t.height == targetHeight tier)

/-- Modelled from the spec: the built-in default track selection policy for
variant tracks (`shaka.offline.Storage.defaultTrackSelect`, missing from
src): choose the language tier, then reduce by resolution when several
resolutions exist (always, when no language/primary match was found). -/
def defaultTrackSelect (preferred : String) (tracks : List Variant) :
    List Variant :=
  let tm := chooseTier preferred tracks
  if !tm.2 then selectResolution tm.1
  else if multipleResolutions tm.1 then selectResolution tm.1
  else tm.1

/-! ## Concrete scenarios from the unit tests -/

/-- The four byte-ranged segment references of the progress test
("reports progress / when byte ranges given", src/unnamed/part_000). -/
def c2refs : List SegRef := [
  ⟨0, 1, "fake:0", 0, some 53⟩,
  ⟨1, 2, "fake:1", 31, some 43⟩,
  ⟨2, 3, "fake:2", 291, some 356⟩,
  ⟨3, 4, "fake:3", 11, some 27⟩]

/-- The fake networking engine of that test: response byte counts per URI. -/
def c2net : String → Nat := fun u =>
  if u = "fake:0" then 54 else if u = "fake:1" then 13
  else if u = "fake:2" then 66 else if u = "fake:3" then 17 else 0

/-- The store input of that test: duration 20, one audio stream with the
four byte-ranged segments, one empty video stream, no DRM. -/
def c2input : StoreInput :=
  { originalUri := "fake:123"
    appMetadata := []
    manifest :=
      { duration := 20, isLive := false, bandwidth := 160
        streams := [⟨"audio", none, c2refs⟩, ⟨"video", none, []⟩] }
    drm := { drmInfo := none, sessionIds := [], expiration := none } }

/-- A freshly constructed manager over an empty storage engine. -/
def emptyMgr : MgrState := { engine := ⟨[], [], 0, 0⟩, inProgress := false }

/-- The descriptor the progress test's store resolves with. -/
def c2content : StoredContent :=
  { offlineUri := manifestIdToUri 0
    originalManifestUri := "fake:123"
    duration := 20
    size := 150
    expiration := none
    appMetadata := [] }

/-- A stored manifest whose stream references segments 1, 2 and 3 plus the
absent segment id 1253 (the "will not raise error on missing segments"
test: the first segment's URI was redirected to a missing record). -/
def c4record : ManifestRecord :=
  { originalUri := ""
    duration := 8
    periods := [⟨[⟨none, [
      ⟨0, 2, segmentIdToUri 1253⟩, ⟨2, 4, segmentIdToUri 1⟩,
      ⟨4, 6, segmentIdToUri 2⟩, ⟨6, 8, segmentIdToUri 3⟩]⟩]⟩]
    sessionIds := []
    drmInfo := none
    appMetadata := []
    expiration := none }

/-- The store of that test: one manifest record and segments 0..3. -/
def c4state : MgrState :=
  { engine :=
      { manifests := [(0, c4record)]
        segments := [(0, ⟨2⟩), (1, ⟨2⟩), (2, ⟨2⟩), (3, ⟨2⟩)]
        nextManifestId := 1
        nextSegmentId := 4 }
    inProgress := false }

/-- A stored manifest referencing segments `first..first+3` (the
"will not delete other manifest's segments" test builds two of these). -/
def c5record (first : Nat) : ManifestRecord :=
  { originalUri := ""
    duration := 8
    periods := [⟨[⟨none, [
      ⟨0, 2, segmentIdToUri first⟩, ⟨2, 4, segmentIdToUri (first + 1)⟩,
      ⟨4, 6, segmentIdToUri (first + 2)⟩, ⟨6, 8, segmentIdToUri (first + 3)⟩]⟩]⟩]
    sessionIds := []
    drmInfo := none
    appMetadata := []
    expiration := none }

/-- The store of that test: two manifests sharing no segment ids, with
segment records 0..7. -/
def c5state : MgrState :=
  { engine :=
      { manifests := [(0, c5record 0), (1, c5record 4)]
        segments := (List.range 8).map fun i => (i, ⟨2⟩)
        nextManifestId := 2
        nextSegmentId := 8 }
    inProgress := false }

/-- The variant tracks of the "stores the largest SD video track, middle
audio" test: a Spanish primary, English variations, French, and Swahili
variants at several resolutions and bandwidths. -/
def c7tracks : List Variant := [
  ⟨10, "es", 160, 100, 200, true⟩,
  ⟨20, "en", 160, 100, 200, false⟩,
  ⟨21, "en-US", 160, 100, 200, false⟩,
  ⟨22, "en-GB", 160, 100, 200, false⟩,
  ⟨30, "fr-CA", 160, 100, 200, false⟩,
  ⟨40, "sw", 160, 100, 200, false⟩,
  ⟨41, "sw", 160, 1080, 720, false⟩,
  ⟨42, "sw", 100, 720, 480, false⟩,
  ⟨43, "sw", 200, 720, 480, false⟩,
  ⟨44, "sw", 300, 720, 480, false⟩]

/-- The chosen language tier, as a named projection of `chooseTier`. -/
def languageTier (preferred : String) (tracks : List Variant) : List Variant :=
  (chooseTier preferred tracks).1

/-- The same-resolution candidates the resolution step reduces among. -/
def sdCandidates (tier : List Variant) : List Variant :=
  tier.filter fun t => t.height == targetHeight tier

instance : DecidableEq (Except SError StoredContent) := fun a b =>
  match a, b with
  | .ok x, .ok y =>
    if h : x = y then isTrue (by rw [h]) else isFalse (by simp [h])
  | .error x, .error y =>
    if h : x = y then isTrue (by rw [h]) else isFalse (by simp [h])
  | .ok _, .error _ => isFalse (by simp)
  | .error _, .ok _ => isFalse (by simp)

/-! ## Lemmas: decimal numerals and the URI codec -/

theorem digitVal?_digitChar {d : Nat} (h : d < 10) :
    digitVal? (digitChar d) = some d := by
  interval_cases d <;> decide

theorem natCharsAux_eq {n f₁ f₂ : Nat} (h₁ : n < f₁) (h₂ : n < f₂) :
    natCharsAux f₁ n = natCharsAux f₂ n := by
  induction n using Nat.strong_induction_on generalizing f₁ f₂ with
  | _ n ih =>
    cases f₁ with
    | zero => omega
    | succ f₁ =>
      cases f₂ with
      | zero => omega
      | succ f₂ =>
        simp only [natCharsAux]
        by_cases hn : n < 10
        · simp [hn]
        · have hd : n / 10 < n := Nat.div_lt_self (by omega) (by omega)
          simp only [if_neg hn]
          rw [ih (n / 10) hd (show n / 10 < f₁ by omega) (show n / 10 < f₂ by omega)]

theorem natChars_small {n : Nat} (hn : n < 10) : natChars n = [digitChar n] := by
  simp [natChars, natCharsAux, hn]

theorem natChars_step {n : Nat} (hn : ¬ n < 10) :
    natChars n = natChars (n / 10) ++ [digitChar (n % 10)] := by
  have hd : n / 10 < n := Nat.div_lt_self (by omega) (by omega)
  have l1 : natChars n = natCharsAux (n + 1) n := rfl
  have step : natCharsAux (n + 1) n =
      natCharsAux n (n / 10) ++ [digitChar (n % 10)] := by
    simp only [natCharsAux, if_neg hn]
  rw [l1, step, natChars, natCharsAux_eq hd (show n / 10 < n / 10 + 1 by omega)]

theorem natChars_ne_nil (n : Nat) : natChars n ≠ [] := by
  by_cases hn : n < 10
  · simp [natChars_small hn]
  · simp [natChars_step hn]

theorem parseDigitsFrom_append (acc : Nat) (xs ys : List Char) :
    parseDigitsFrom acc (xs ++ ys) =
      match parseDigitsFrom acc xs with
      | some v => parseDigitsFrom v ys
      | none => none := by
  induction xs generalizing acc with
  | nil => simp [parseDigitsFrom]
  | cons c cs ih =>
    simp only [List.cons_append, parseDigitsFrom]
    cases digitVal? c <;> simp [ih]

theorem parseDigitsFrom_natChars (n : Nat) :
    parseDigitsFrom 0 (natChars n) = some n := by
  induction n using Nat.strong_induction_on with
  | _ n ih =>
    by_cases hn : n < 10
    · simp [natChars_small hn, parseDigitsFrom, digitVal?_digitChar hn]
    · have hd : n / 10 < n := Nat.div_lt_self (by omega) (by omega)
      have hm : n % 10 < 10 := Nat.mod_lt _ (by omega)
      rw [natChars_step hn, parseDigitsFrom_append, ih (n / 10) hd]
      simp only [parseDigitsFrom, digitVal?_digitChar hm]
      exact congrArg some (by omega)

theorem parseDigits_natChars (n : Nat) : parseDigits (natChars n) = some n := by
  have h := parseDigitsFrom_natChars n
  cases hc : natChars n with
  | nil => exact absurd hc (natChars_ne_nil n)
  | cons c cs =>
    rw [hc] at h
    simpa [parseDigits] using h

theorem chopHead_append (p r : List Char) : chopHead (p ++ r) p = some r := by
  induction p with
  | nil => simp [chopHead]
  | cons c cs ih => simp [chopHead, ih]

theorem chopHead_eq_some {s p r : List Char} (h : chopHead s p = some r) :
    s = p ++ r := by
  induction p generalizing s with
  | nil => simpa [chopHead] using h
  | cons c cs ih =>
    cases s with
    | nil => simp [chopHead] at h
    | cons a as =>
      simp only [chopHead] at h
      split at h
      · rename_i heq
        subst heq
        simpa using ih h
      · simp at h

theorem uriToId_encode (scheme : List Char) (n : Nat) :
    uriToId scheme ⟨scheme ++ natChars n⟩ = some n := by
  simp [uriToId, chopHead_append, parseDigits_natChars]

theorem uriToId_some {scheme : List Char} {s : String} {n : Nat}
    (h : uriToId scheme s = some n) : s = ⟨scheme ++ natChars n⟩ := by
  simp only [uriToId, Option.bind_eq_some] at h
  obtain ⟨rest, hc, m, hp, hif⟩ := h
  have heq : natChars m = rest := by
    by_contra hne
    simp [hne] at hif
  have hmn : m = n := by
    rw [if_pos heq] at hif
    simpa using hif
  have hs := chopHead_eq_some hc
  apply String.ext
  rw [hs, ← heq, hmn]

/-- C3: the offline URI codec round-trips: decoding the URI produced by
`manifestIdToUri` / `segmentIdToUri` with the matching decoder returns the
original id; decoding succeeds only on exactly those URIs (any other string
decodes to `none` rather than throwing); and `remove` on a descriptor whose
`offlineUri` does not decode rejects with `MALFORMED_OFFLINE_URI` carrying
that URI. -/
theorem claim_C3 :
    (∀ n, uriToManifestId (manifestIdToUri n) = some n) ∧
    (∀ n, uriToSegmentId (segmentIdToUri n) = some n) ∧
    (∀ (s : String) (n : Nat), uriToManifestId s = some n → s = manifestIdToUri n) ∧
    (∀ (s : String) (n : Nat), uriToSegmentId s = some n → s = segmentIdToUri n) ∧
    (∀ (st : MgrState) (u : String), uriToManifestId u = none →
      remove st u = (.error (.malformedOfflineUri u), st)) := by
  refine ⟨fun n => uriToId_encode manifestScheme n,
    fun n => uriToId_encode segmentScheme n,
    fun s n h => uriToId_some h,
    fun s n h => uriToId_some h,
    fun st u h => ?_⟩
  simp [remove, uriToManifestId] at h ⊢
  rw [h]

theorem claim_C3_witness :
    uriToManifestId (manifestIdToUri 5) = some 5 ∧
    uriToSegmentId (segmentIdToUri 1253) = some 1253 ∧
    (uriToManifestId "offline:manifest/42" = some 42 ∧
      "offline:manifest/42" = manifestIdToUri 42) ∧
    (uriToManifestId "foo:bar" = none ∧
      remove emptyMgr "foo:bar" =
        (.error (.malformedOfflineUri "foo:bar"), emptyMgr)) :=
  ⟨claim_C3.1 5, claim_C3.2.1 1253,
    ⟨by decide, claim_C3.2.2.1 "offline:manifest/42" 42 (by decide)⟩,
    ⟨by decide, claim_C3.2.2.2.2 emptyMgr "foo:bar" (by decide)⟩⟩

/-! ## Lemmas: the storage engine and the removal walk -/

theorem lookupRec_filter_self {α : Type} (l : List (Nat × α)) (x : Nat) :
    lookupRec (l.filter fun p => p.1 != x) x = none := by
  induction l with
  | nil => rfl
  | cons hd tl ih =>
    by_cases hx : hd.1 = x
    · rw [List.filter_cons_of_neg (by simp [hx])]
      exact ih
    · rw [List.filter_cons_of_pos (by simp [hx])]
      simp only [lookupRec]
      rw [if_neg hx]
      exact ih

theorem lookupRec_filter_other {α : Type} (l : List (Nat × α)) {x i : Nat}
    (h : i ≠ x) :
    lookupRec (l.filter fun p => p.1 != x) i = lookupRec l i := by
  induction l with
  | nil => rfl
  | cons hd tl ih =>
    by_cases hx : hd.1 = x
    · rw [List.filter_cons_of_neg (by simp [hx]), ih]
      simp only [lookupRec]
      rw [if_neg (show ¬ hd.1 = i by omega)]
    · rw [List.filter_cons_of_pos (by simp [hx])]
      simp only [lookupRec]
      by_cases hi : hd.1 = i
      · simp only [if_pos hi]
      · simp only [if_neg hi]
        exact ih

theorem lookupRec_filter_ne {α : Type} (l : List (Nat × α)) (x i : Nat) :
    lookupRec (l.filter fun p => p.1 != x) i =
      if i = x then none else lookupRec l i := by
  by_cases hix : i = x
  · rw [if_pos hix, hix]
    exact lookupRec_filter_self l x
  · rw [if_neg hix]
    exact lookupRec_filter_other l hix

theorem getSegmentRec_removeSegment (e : Engine) (x i : Nat) :
    getSegmentRec (engineRemoveSegment e x) i =
      if i = x then none else getSegmentRec e i := by
  simp only [getSegmentRec, engineRemoveSegment, lookupRec_filter_ne]

theorem getManifestRec_removeManifest (e : Engine) (x m : Nat) :
    getManifestRec (engineRemoveManifest e x) m =
      if m = x then none else getManifestRec e m := by
  simp only [getManifestRec, engineRemoveManifest, lookupRec_filter_ne]

theorem getSegmentRec_removeManifest (e : Engine) (x i : Nat) :
    getSegmentRec (engineRemoveManifest e x) i = getSegmentRec e i := rfl

theorem getSegmentRec_removeAll (ids : List Nat) (e : Engine) (i : Nat) :
    getSegmentRec (ids.foldl engineRemoveSegment e) i =
      if i ∈ ids then none else getSegmentRec e i := by
  induction ids generalizing e with
  | nil => simp
  | cons x xs ih =>
    rw [List.foldl_cons, ih, getSegmentRec_removeSegment]
    by_cases hix : i = x
    · simp [hix]
    · by_cases hxs : i ∈ xs <;> simp [hix, hxs]

theorem manifests_removeAll (ids : List Nat) (e : Engine) :
    (ids.foldl engineRemoveSegment e).manifests = e.manifests := by
  induction ids generalizing e with
  | nil => rfl
  | cons x xs ih => rw [List.foldl_cons, ih]; rfl

theorem getManifestRec_removeAll (ids : List Nat) (e : Engine) (m : Nat) :
    getManifestRec (ids.foldl engineRemoveSegment e) m = getManifestRec e m := by
  simp only [getManifestRec, manifests_removeAll]

theorem remove_found_fst {s : MgrState} {mid : Nat} {r : ManifestRecord}
    (h : getManifestRec s.engine mid = some r) :
    (remove s (manifestIdToUri mid)).1 = .ok () := by
  have hdec : uriToManifestId (manifestIdToUri mid) = some mid :=
    uriToId_encode manifestScheme mid
  simp only [remove, hdec, h]

theorem remove_found_engine {s : MgrState} {mid : Nat} {r : ManifestRecord}
    (h : getManifestRec s.engine mid = some r) :
    (remove s (manifestIdToUri mid)).2.engine =
      engineRemoveManifest
        ((collectSegIds r).foldl engineRemoveSegment s.engine) mid := by
  have hdec : uriToManifestId (manifestIdToUri mid) = some mid :=
    uriToId_encode manifestScheme mid
  simp only [remove, hdec, h]

/-- C4: removing a stored manifest one of whose segment references points
at a segment id that is not in the store succeeds rather than rejecting:
the missing segment is tolerated silently, and every other referenced
segment as well as the manifest record itself is still deleted. -/
theorem claim_C4 (s : MgrState) (mid : Nat) (r : ManifestRecord)
    (hman : getManifestRec s.engine mid = some r)
    (hmissing : ∃ i ∈ collectSegIds r, getSegmentRec s.engine i = none) :
    (remove s (manifestIdToUri mid)).1 = .ok () ∧
    getManifestRec (remove s (manifestIdToUri mid)).2.engine mid = none ∧
    ∀ i ∈ collectSegIds r,
      getSegmentRec (remove s (manifestIdToUri mid)).2.engine i = none := by
  refine ⟨remove_found_fst hman, ?_, ?_⟩
  · rw [remove_found_engine hman, getManifestRec_removeManifest]
    simp
  · intro i hi
    rw [remove_found_engine hman, getSegmentRec_removeManifest,
      getSegmentRec_removeAll]
    simp [hi]

theorem claim_C4_witness :
    (getManifestRec c4state.engine 0 = some c4record ∧
      1253 ∈ collectSegIds c4record ∧ getSegmentRec c4state.engine 1253 = none) ∧
    ((remove c4state (manifestIdToUri 0)).1 = .ok () ∧
      getManifestRec (remove c4state (manifestIdToUri 0)).2.engine 0 = none ∧
      ∀ i ∈ collectSegIds c4record,
        getSegmentRec (remove c4state (manifestIdToUri 0)).2.engine i = none) :=
  ⟨⟨by decide, by decide, by decide⟩,
    claim_C4 c4state 0 c4record (by decide) ⟨1253, by decide, by decide⟩⟩

/-- C5: with two stored manifests sharing no segment ids, removing the
first deletes exactly its manifest record and exactly its referenced
segment records: the second manifest and every segment referenced only by
it remain present and retrievable. -/
theorem claim_C5 (s : MgrState) (mid1 mid2 : Nat) (r1 r2 : ManifestRecord)
    (h1 : getManifestRec s.engine mid1 = some r1)
    (h2 : getManifestRec s.engine mid2 = some r2)
    (hne : mid2 ≠ mid1)
    (hdisj : ∀ i ∈ collectSegIds r1, i ∉ collectSegIds r2) :
    (remove s (manifestIdToUri mid1)).1 = .ok () ∧
    getManifestRec (remove s (manifestIdToUri mid1)).2.engine mid1 = none ∧
    getManifestRec (remove s (manifestIdToUri mid1)).2.engine mid2 = some r2 ∧
    (∀ m, m ≠ mid1 →
      getManifestRec (remove s (manifestIdToUri mid1)).2.engine m =
        getManifestRec s.engine m) ∧
    (∀ i ∈ collectSegIds r1,
      getSegmentRec (remove s (manifestIdToUri mid1)).2.engine i = none) ∧
    (∀ i, i ∉ collectSegIds r1 →
      getSegmentRec (remove s (manifestIdToUri mid1)).2.engine i =
        getSegmentRec s.engine i) ∧
    (∀ i ∈ collectSegIds r2,
      getSegmentRec (remove s (manifestIdToUri mid1)).2.engine i =
        getSegmentRec s.engine i) := by
  refine ⟨remove_found_fst h1, ?_, ?_, ?_, ?_, ?_, ?_⟩
  · rw [remove_found_engine h1, getManifestRec_removeManifest]
    simp
  · rw [remove_found_engine h1, getManifestRec_removeManifest, if_neg hne,
      getManifestRec_removeAll]
    exact h2
  · intro m hm
    rw [remove_found_engine h1, getManifestRec_removeManifest, if_neg hm,
      getManifestRec_removeAll]
  · intro i hi
    rw [remove_found_engine h1, getSegmentRec_removeManifest,
      getSegmentRec_removeAll]
    simp [hi]
  · intro i hi
    rw [remove_found_engine h1, getSegmentRec_removeManifest,
      getSegmentRec_removeAll, if_neg hi]
  · intro i hi
    rw [remove_found_engine h1, getSegmentRec_removeManifest,
      getSegmentRec_removeAll, if_neg (fun hmem => hdisj i hmem hi)]

theorem claim_C5_witness :
    (getManifestRec c5state.engine 0 = some (c5record 0) ∧
      getManifestRec c5state.engine 1 = some (c5record 4) ∧
      (∀ i ∈ collectSegIds (c5record 0), i ∉ collectSegIds (c5record 4))) ∧
    ((remove c5state (manifestIdToUri 0)).1 = .ok () ∧
      getManifestRec (remove c5state (manifestIdToUri 0)).2.engine 0 = none ∧
      getManifestRec (remove c5state (manifestIdToUri 0)).2.engine 1 =
        some (c5record 4) ∧
      (∀ m, m ≠ 0 →
        getManifestRec (remove c5state (manifestIdToUri 0)).2.engine m =
          getManifestRec c5state.engine m) ∧
      (∀ i ∈ collectSegIds (c5record 0),
        getSegmentRec (remove c5state (manifestIdToUri 0)).2.engine i = none) ∧
      (∀ i, i ∉ collectSegIds (c5record 0) →
        getSegmentRec (remove c5state (manifestIdToUri 0)).2.engine i =
          getSegmentRec c5state.engine i) ∧
      (∀ i ∈ collectSegIds (c5record 4),
        getSegmentRec (remove c5state (manifestIdToUri 0)).2.engine i =
          getSegmentRec c5state.engine i)) :=
  ⟨⟨by decide, by decide, by decide⟩,
    claim_C5 c5state 0 1 (c5record 0) (c5record 4)
      (by decide) (by decide) (by decide) (by decide)⟩

/-! ## Lemmas: the store pipeline -/

theorem store_success {s : MgrState} {cfg : Config} {inp : StoreInput}
    (net : String → Nat) (sched : List SegRef)
    (hidle : s.inProgress = false) (hlive : inp.manifest.isLive = false)
    (hnid : noInitData cfg inp.drm = false) :
    store s cfg inp net sched =
      { result := .ok (mkContent s.engine.nextManifestId inp (finalSize inp net))
        state := { engine := storeEngine s.engine cfg inp net, inProgress := false }
        events := progressEvents (seedBps inp) net
          (estimatedTotal (seedBps inp) inp.manifest)
          (mkContent s.engine.nextManifestId inp) sched } := by
  rw [store, if_neg (by simp [hidle]), storeFinish,
    if_neg (by simp [hlive]), if_neg (by simp [hnid])]

theorem putSegments_manifests (refs : List SegRef) (e : Engine)
    (net : String → Nat) :
    (putSegments e refs net).manifests = e.manifests := by
  induction refs generalizing e with
  | nil => rfl
  | cons r rs ih => rw [putSegments, List.foldl_cons, ← putSegments, ih]

theorem getManifestRec_storeEngine (e : Engine) (cfg : Config)
    (inp : StoreInput) (net : String → Nat) :
    getManifestRec (storeEngine e cfg inp net) e.nextManifestId =
      some (buildManifestRecord cfg inp e.nextSegmentId) := by
  simp [storeEngine, getManifestRec, lookupRec]

/-- C1: the single-flight invariant: while one store is in flight, a second
`store` call on the same manager rejects with `STORE_ALREADY_IN_PROGRESS`,
leaves the manager state untouched and issues no progress callbacks, while
the first store still completes exactly as it would have undisturbed (and
successfully, when its input is storable). -/
theorem claim_C1 (s : MgrState) (cfg cfg2 : Config) (inp inp2 : StoreInput)
    (net net2 : String → Nat) (sched sched2 : List SegRef)
    (hidle : s.inProgress = false) :
    store { s with inProgress := true } cfg2 inp2 net2 sched2 =
      ⟨.error .storeAlreadyInProgress, { s with inProgress := true }, []⟩ ∧
    storeFinish { s with inProgress := true } cfg inp net sched =
      store s cfg inp net sched ∧
    (inp.manifest.isLive = false → noInitData cfg inp.drm = false →
      ∃ d, (store s cfg inp net sched).result = .ok d) := by
  refine ⟨rfl, ?_, fun hlive hnid => ?_⟩
  · rw [store, if_neg (by simp [hidle])]
  · rw [store_success net sched hidle hlive hnid]
    exact ⟨_, rfl⟩

theorem claim_C1_witness :
    emptyMgr.inProgress = false ∧
    store { emptyMgr with inProgress := true } ⟨true⟩ c2input c2net c2refs =
      ⟨.error .storeAlreadyInProgress, { emptyMgr with inProgress := true }, []⟩ ∧
    storeFinish { emptyMgr with inProgress := true } ⟨true⟩ c2input c2net c2refs =
      store emptyMgr ⟨true⟩ c2input c2net c2refs ∧
    (c2input.manifest.isLive = false → noInitData ⟨true⟩ c2input.drm = false →
      ∃ d, (store emptyMgr ⟨true⟩ c2input c2net c2refs).result = .ok d) :=
  ⟨rfl, claim_C1 emptyMgr ⟨true⟩ ⟨true⟩ c2input c2input c2net c2net
    c2refs c2refs rfl⟩

/-- C6: with `usePersistentLicense` configured false, the committed
`ManifestRecord`'s `sessionIds` is empty no matter what session ids the DRM
context reports, while its `drmInfo` still equals the DRM context's
key-system metadata. -/
theorem claim_C6 (s : MgrState) (cfg : Config) (inp : StoreInput)
    (net : String → Nat) (sched : List SegRef)
    (hidle : s.inProgress = false)
    (hupl : cfg.usePersistentLicense = false)
    (hlive : inp.manifest.isLive = false) :
    ∃ d r, (store s cfg inp net sched).result = .ok d ∧
      getManifestRec (store s cfg inp net sched).state.engine
        s.engine.nextManifestId = some r ∧
      r.sessionIds = [] ∧ r.drmInfo = inp.drm.drmInfo := by
  have hnid : noInitData cfg inp.drm = false := by simp [noInitData, hupl]
  rw [store_success net sched hidle hlive hnid]
  refine ⟨_, _, rfl, getManifestRec_storeEngine s.engine cfg inp net, ?_, rfl⟩
  simp [buildManifestRecord, boundSessionIds, hupl]

theorem claim_C6_witness :
    ∃ d r,
      (store emptyMgr ⟨false⟩
        { c2input with drm := ⟨some ⟨"com.example.abc", "http://example.com",
          false, false, "HARDY", "OTHER"⟩, ["abcd"], none⟩ }
        c2net c2refs).result = .ok d ∧
      getManifestRec
        (store emptyMgr ⟨false⟩
          { c2input with drm := ⟨some ⟨"com.example.abc", "http://example.com",
            false, false, "HARDY", "OTHER"⟩, ["abcd"], none⟩ }
          c2net c2refs).state.engine emptyMgr.engine.nextManifestId = some r ∧
      r.sessionIds = [] ∧
      r.drmInfo = some ⟨"com.example.abc", "http://example.com",
        false, false, "HARDY", "OTHER"⟩ :=
  claim_C6 emptyMgr ⟨false⟩
    { c2input with drm := ⟨some ⟨"com.example.abc", "http://example.com",
      false, false, "HARDY", "OTHER"⟩, ["abcd"], none⟩ }
    c2net c2refs rfl rfl rfl

/-- C8: a successful store records as duration the source manifest's
presentation duration, both in the committed `ManifestRecord` and in the
returned descriptor (it is never recomputed from the downloaded segments);
with no segments at all the descriptor still carries that duration and
size 0. -/
theorem claim_C8 (s : MgrState) (cfg : Config) (inp : StoreInput)
    (net : String → Nat) (sched : List SegRef)
    (hidle : s.inProgress = false) (hlive : inp.manifest.isLive = false)
    (hnid : noInitData cfg inp.drm = false) :
    ∃ d r, (store s cfg inp net sched).result = .ok d ∧
      getManifestRec (store s cfg inp net sched).state.engine
        s.engine.nextManifestId = some r ∧
      d.duration = inp.manifest.duration ∧
      r.duration = inp.manifest.duration ∧
      (allRefs inp.manifest = [] → d.size = 0) := by
  rw [store_success net sched hidle hlive hnid]
  refine ⟨_, _, rfl, getManifestRec_storeEngine s.engine cfg inp net,
    rfl, rfl, fun hempty => ?_⟩
  simp [mkContent, finalSize, hempty]

theorem claim_C8_witness :
    ∃ d r,
      (store emptyMgr ⟨true⟩
        { c2input with manifest := { c2input.manifest with streams := [] } }
        c2net []).result = .ok d ∧
      getManifestRec
        (store emptyMgr ⟨true⟩
          { c2input with manifest := { c2input.manifest with streams := [] } }
          c2net []).state.engine emptyMgr.engine.nextManifestId = some r ∧
      d.duration = 20 ∧ r.duration = 20 ∧
      (allRefs { c2input.manifest with streams := [] } = [] → d.size = 0) :=
  claim_C8 emptyMgr ⟨true⟩
    { c2input with manifest := { c2input.manifest with streams := [] } }
    c2net [] rfl rfl rfl

/-! ## Lemmas: schedules and the progress scenario -/

theorem isSchedule_of_pair_nil {ls : List (List SegRef)} {out : List SegRef}
    (h : IsSchedule ls out) : ∀ l, ls = [l, []] → out = l := by
  induction h with
  | done ls hnil =>
    intro l hl
    subst hl
    have := hnil l (by simp)
    simp [this]
  | step ls i x rest out hget htail ih =>
    intro l hl
    subst hl
    match i, hget with
    | 0, hget =>
      have hx : l = x :: rest := by simpa using hget
      have hout : out = rest := ih rest (by simp)
      rw [hx, hout]
    | 1, hget => simp at hget
    | n + 2, hget => simp at hget

theorem isSchedule_left (l : List SegRef) : IsSchedule [l, []] l := by
  induction l with
  | nil => exact .done _ (by simp)
  | cons x xs ih => exact .step _ 0 x xs xs (by simp) ih

/-- C2: for the manifest with one audio stream of four byte-ranged segments
sized 54, 13, 66 and 17 bytes and one empty video stream, `store` (under
any valid download schedule, which here is unique) reports a final size of
150, and invokes the progress callback exactly four times, in order, with
fractions 54/150, 67/150, 133/150 and 1, each carrying a descriptor whose
size field is 150. -/
theorem claim_C2 (sched : List SegRef)
    (hsched : IsSchedule (c2input.manifest.streams.map streamRefs) sched) :
    ((store emptyMgr ⟨true⟩ c2input c2net sched).events.map (·.percent)) =
      [54 / 150, 67 / 150, 133 / 150, 1] ∧
    ((store emptyMgr ⟨true⟩ c2input c2net sched).events.map (·.content.size)) =
      [150, 150, 150, 150] ∧
    ∃ d, (store emptyMgr ⟨true⟩ c2input c2net sched).result = .ok d ∧
      d.size = 150 := by
  have hs : sched = c2refs :=
    isSchedule_of_pair_nil hsched c2refs (by decide)
  subst hs
  refine ⟨by with_unfolding_all decide, by with_unfolding_all decide,
    c2content, by with_unfolding_all decide, by with_unfolding_all decide⟩

theorem claim_C2_witness :
    IsSchedule (c2input.manifest.streams.map streamRefs) c2refs ∧
    ((store emptyMgr ⟨true⟩ c2input c2net c2refs).events.map (·.percent)) =
      [54 / 150, 67 / 150, 133 / 150, 1] ∧
    ((store emptyMgr ⟨true⟩ c2input c2net c2refs).events.map (·.content.size)) =
      [150, 150, 150, 150] ∧
    ∃ d, (store emptyMgr ⟨true⟩ c2input c2net c2refs).result = .ok d ∧
      d.size = 150 :=
  have hs : IsSchedule (c2input.manifest.streams.map streamRefs) c2refs := by
    have : c2input.manifest.streams.map streamRefs = [c2refs, []] := by decide
    rw [this]
    exact isSchedule_left c2refs
  ⟨hs, claim_C2 c2refs hs⟩

/-! ## Lemmas: the default track selector -/

theorem le_maxNat {l : List Nat} {x : Nat} (h : x ∈ l) : x ≤ maxNat l := by
  induction l with
  | nil => simp at h
  | cons hd tl ih =>
    rw [maxNat]
    rcases List.mem_cons.mp h with h | h
    · rw [h]
      exact le_max_left _ _
    · exact le_trans (ih h) (le_max_right _ _)

theorem maxNat_mem {l : List Nat} (h : l ≠ []) : maxNat l ∈ l := by
  induction l with
  | nil => exact absurd rfl h
  | cons hd tl ih =>
    by_cases htl : tl = []
    · subst htl
      simp [maxNat]
    · rw [maxNat]
      rcases Nat.le_total (maxNat tl) hd with hle | hle
      · rw [max_eq_left hle]
        exact List.mem_cons_self hd tl
      · rw [max_eq_right hle]
        exact List.mem_cons_of_mem hd (ih htl)

theorem take_one_drop_eq {α : Type} (l : List α) {n : Nat} (h : n < l.length) :
    (l.drop n).take 1 = [l.get ⟨n, h⟩] := by
  rw [List.drop_eq_get_cons h]
  rfl

theorem targetHeight_spec {tier : List Variant}
    (hsd : ∃ t ∈ tier, t.height ≤ sdCutoff) :
    targetHeight tier ≤ sdCutoff ∧
      (∃ t ∈ tier, t.height = targetHeight tier) ∧
      ∀ t ∈ tier, t.height ≤ sdCutoff → t.height ≤ targetHeight tier := by
  obtain ⟨t0, ht0, hle0⟩ := hsd
  have ht0eli : t0 ∈ tier.filter fun t => t.height ≤ sdCutoff := by
    simp [List.mem_filter, ht0, hle0]
  have hne : ((tier.filter fun t => t.height ≤ sdCutoff).isEmpty) = false := by
    cases h : tier.filter fun t => t.height ≤ sdCutoff with
    | nil =>
      rw [h] at ht0eli
      simp at ht0eli
    | cons a as => rfl
  have htar : targetHeight tier =
      maxNat ((tier.filter fun t => t.height ≤ sdCutoff).map (·.height)) := by
    simp [targetHeight, hne]
  have hmapne : ((tier.filter fun t => t.height ≤ sdCutoff).map (·.height)) ≠ [] := by
    have := List.ne_nil_of_mem ht0eli
    simpa [List.map_eq_nil]
  obtain ⟨t, htf, hth⟩ := List.mem_map.mp (maxNat_mem hmapne)
  refine ⟨?_, ?_, ?_⟩
  · rw [htar, ← hth]
    have := (List.mem_filter.mp htf).2
    simpa using this
  · exact ⟨t, (List.mem_filter.mp htf).1, by rw [htar, hth]⟩
  · intro u hu hle
    rw [htar]
    exact le_maxNat (List.mem_map.mpr ⟨u, by simp [List.mem_filter, hu, hle], rfl⟩)

theorem middleByBandwidth_spec {l : List Variant} (hlen : 3 ≤ l.length)
    (hdist : l.Pairwise fun a b => a.bandwidth ≠ b.bandwidth) :
    ∃ c, middleByBandwidth l = [c] ∧ c ∈ l ∧
      (∃ t1 ∈ l, t1.bandwidth < c.bandwidth) ∧
      (∃ t2 ∈ l, c.bandwidth < t2.bandwidth) := by
  have hperm := List.perm_insertionSort bwLE l
  have hsorted : List.Pairwise bwLE (l.insertionSort bwLE) :=
    List.sorted_insertionSort bwLE l
  have hdists : List.Pairwise (fun a b => a.bandwidth ≠ b.bandwidth)
      (l.insertionSort bwLE) :=
    (hperm.pairwise_iff fun h => h.symm).mpr hdist
  have hlensort : (l.insertionSort bwLE).length = l.length :=
    List.length_insertionSort bwLE l
  have hn2 : (l.insertionSort bwLE).length / 2 < (l.insertionSort bwLE).length := by
    omega
  have h0 : 0 < (l.insertionSort bwLE).length := by omega
  have hlast : (l.insertionSort bwLE).length - 1 < (l.insertionSort bwLE).length := by
    omega
  refine ⟨(l.insertionSort bwLE).get ⟨_, hn2⟩, ?_, ?_, ?_, ?_⟩
  · show ((l.insertionSort bwLE).drop ((l.insertionSort bwLE).length / 2)).take 1 =
      [(l.insertionSort bwLE).get ⟨(l.insertionSort bwLE).length / 2, hn2⟩]
    exact take_one_drop_eq _ hn2
  · exact hperm.subset (List.get_mem _ _ _)
  · refine ⟨(l.insertionSort bwLE).get ⟨0, h0⟩, hperm.subset (List.get_mem _ _ _), ?_⟩
    have hlt : (⟨0, h0⟩ : Fin (l.insertionSort bwLE).length) < ⟨_, hn2⟩ :=
      Fin.mk_lt_mk.mpr (by omega)
    exact Nat.lt_of_le_of_ne (List.pairwise_iff_get.mp hsorted _ _ hlt)
      (List.pairwise_iff_get.mp hdists _ _ hlt)
  · refine ⟨(l.insertionSort bwLE).get ⟨_, hlast⟩, hperm.subset (List.get_mem _ _ _), ?_⟩
    have hlt : (⟨_, hn2⟩ : Fin (l.insertionSort bwLE).length) < ⟨_, hlast⟩ :=
      Fin.mk_lt_mk.mpr (by omega)
    exact Nat.lt_of_le_of_ne (List.pairwise_iff_get.mp hsorted _ _ hlt)
      (List.pairwise_iff_get.mp hdists _ _ hlt)

/-- C7: whenever the chosen language tier offers several video resolutions
(with at least one at or below the SD cutoff, and, at the winning
resolution, at least three candidates of pairwise distinct bandwidths),
the built-in default selector keeps exactly one variant: its height is the
largest at or below the SD cutoff within the tier, and among the
same-resolution candidates it is neither the lowest-bandwidth nor the
highest-bandwidth one. -/
theorem claim_C7 (preferred : String) (tracks : List Variant)
    (hmulti : multipleResolutions (languageTier preferred tracks) = true)
    (hsd : ∃ t ∈ languageTier preferred tracks, t.height ≤ sdCutoff)
    (hlen : 3 ≤ (sdCandidates (languageTier preferred tracks)).length)
    (hdist : (sdCandidates (languageTier preferred tracks)).Pairwise
      fun a b => a.bandwidth ≠ b.bandwidth) :
    ∃ c, defaultTrackSelect preferred tracks = [c] ∧
      c ∈ languageTier preferred tracks ∧
      c.height ≤ sdCutoff ∧
      (∀ t ∈ languageTier preferred tracks,
        t.height ≤ sdCutoff → t.height ≤ c.height) ∧
      (∃ t1 ∈ sdCandidates (languageTier preferred tracks),
        t1.height = c.height ∧ t1.bandwidth < c.bandwidth) ∧
      (∃ t2 ∈ sdCandidates (languageTier preferred tracks),
        t2.height = c.height ∧ c.bandwidth < t2.bandwidth) := by
  have hmulti' : multipleResolutions (chooseTier preferred tracks).1 = true := hmulti
  have hsel : defaultTrackSelect preferred tracks =
      selectResolution (languageTier preferred tracks) := by
    rw [defaultTrackSelect]
    cases htm : (chooseTier preferred tracks).2 <;>
      simp [htm, hmulti', languageTier]
  obtain ⟨c, hmid, hcmem, ⟨t1, ht1, ht1lt⟩, ⟨t2, ht2, ht2lt⟩⟩ :=
    middleByBandwidth_spec hlen hdist
  obtain ⟨hcut, hex, hmax⟩ := targetHeight_spec hsd
  have hheight : ∀ u ∈ sdCandidates (languageTier preferred tracks),
      u ∈ languageTier preferred tracks ∧
        u.height = targetHeight (languageTier preferred tracks) := by
    intro u hu
    have := List.mem_filter.mp hu
    exact ⟨this.1, by simpa using this.2⟩
  obtain ⟨hctier, hcheight⟩ := hheight c hcmem
  refine ⟨c, ?_, hctier, ?_, ?_, ⟨t1, ht1, ?_, ht1lt⟩, ⟨t2, ht2, ?_, ht2lt⟩⟩
  · rw [hsel, selectResolution]
    exact hmid
  · rw [hcheight]
    exact hcut
  · intro t ht hle
    rw [hcheight]
    exact hmax t ht hle
  · rw [(hheight t1 ht1).2, hcheight]
  · rw [(hheight t2 ht2).2, hcheight]

theorem claim_C7_witness :
    (multipleResolutions (languageTier "sw" c7tracks) = true ∧
      (∃ t ∈ languageTier "sw" c7tracks, t.height ≤ sdCutoff) ∧
      3 ≤ (sdCandidates (languageTier "sw" c7tracks)).length ∧
      (sdCandidates (languageTier "sw" c7tracks)).Pairwise
        fun a b => a.bandwidth ≠ b.bandwidth) ∧
    ∃ c, defaultTrackSelect "sw" c7tracks = [c] ∧
      c ∈ languageTier "sw" c7tracks ∧
      c.height ≤ sdCutoff ∧
      (∀ t ∈ languageTier "sw" c7tracks,
        t.height ≤ sdCutoff → t.height ≤ c.height) ∧
      (∃ t1 ∈ sdCandidates (languageTier "sw" c7tracks),
        t1.height = c.height ∧ t1.bandwidth < c.bandwidth) ∧
      (∃ t2 ∈ sdCandidates (languageTier "sw" c7tracks),
        t2.height = c.height ∧ c.bandwidth < t2.bandwidth) :=
  ⟨⟨by decide, by decide, by decide, by decide⟩,
    claim_C7 "sw" c7tracks (by decide) (by decide) (by decide) (by decide)⟩

/-! ## Lemmas: BufferUtils -/

theorem bytesView_eq (v : BufferSource) :
    v.bytesView =
      ((unsafeGetArrayBuffer v).data.drop v.byteOffsetOrZero).take v.byteLength := by
  cases v <;>
    simp [BufferSource.bytesView, unsafeGetArrayBuffer,
      BufferSource.byteOffsetOrZero, BufferSource.byteLength]

theorem bytesView_length_le (v : BufferSource) :
    v.bytesView.length ≤ v.byteLength := by
  rw [bytesView_eq]
  simp only [List.length_take, List.length_drop]
  omega

theorem uint8Array_of_byteLevel {v : BufferSource} (h : ByteLevel v) :
    v.uint8Array = v.bytesView := by
  cases v with
  | arrayBuffer buf => rfl
  | uint8View buf off len => rfl
  | typedView buf off k elems => exact h.elim
  | dataView buf off len => exact h.elim

theorem get?_eq_of_all_range {l₁ l₂ : List Nat} {N : Nat}
    (h : ((List.range N).all fun i => l₁.get? i == l₂.get? i) = true) :
    ∀ i < N, l₁.get? i = l₂.get? i := by
  intro i hi
  have := List.all_eq_true.mp h i (List.mem_range.mpr hi)
  simpa using this

theorem all_range_of_get?_eq {l₁ l₂ : List Nat} {N : Nat}
    (h : ∀ i < N, l₁.get? i = l₂.get? i) :
    ((List.range N).all fun i => l₁.get? i == l₂.get? i) = true :=
  List.all_eq_true.mpr fun i hi => by
    simp only [beq_iff_eq]
    exact h i (List.mem_range.mp hi)

theorem list_eq_of_get?_eq {l₁ l₂ : List Nat} {N : Nat} (h₁ : l₁.length ≤ N)
    (h₂ : l₂.length ≤ N) (h : ∀ i < N, l₁.get? i = l₂.get? i) : l₁ = l₂ := by
  apply List.ext
  intro n
  by_cases hn : n < N
  · exact h n hn
  · rw [List.get?_eq_none.mpr (by omega), List.get?_eq_none.mpr (by omega)]

theorem bytesView_same_buffer {va vb : BufferSource}
    (hbuf : unsafeGetArrayBuffer va = unsafeGetArrayBuffer vb)
    (hoff : va.byteOffsetOrZero = vb.byteOffsetOrZero)
    (hlen : va.byteLength = vb.byteLength) :
    va.bytesView = vb.bytesView := by
  rw [bytesView_eq, bytesView_eq, hbuf, hoff, hlen]

theorem bufferEqual_some_iff (va vb : BufferSource) :
    bufferEqual (some va) (some vb) = true ↔
      va.byteLength = vb.byteLength ∧
        (((unsafeGetArrayBuffer va).id = (unsafeGetArrayBuffer vb).id ∧
          va.byteOffsetOrZero = vb.byteOffsetOrZero) ∨
         ∀ i < va.byteLength, va.uint8Array.get? i = vb.uint8Array.get? i) := by
  simp only [bufferEqual]
  constructor
  · intro h
    by_cases hlen : va.byteLength = vb.byteLength
    · refine ⟨hlen, ?_⟩
      rw [if_neg (by simp [hlen])] at h
      by_cases hid : (unsafeGetArrayBuffer va).id = (unsafeGetArrayBuffer vb).id ∧
          va.byteOffsetOrZero = vb.byteOffsetOrZero
      · exact .inl hid
      · right
        rw [if_neg (by simp only [Bool.and_eq_true, beq_iff_eq]; exact hid)] at h
        exact get?_eq_of_all_range h
    · exfalso
      rw [if_pos (by simp [hlen])] at h
      exact Bool.false_ne_true h
  · rintro ⟨hlen, hrest⟩
    rw [if_neg (by simp [hlen])]
    by_cases hid : ((unsafeGetArrayBuffer va).id == (unsafeGetArrayBuffer vb).id &&
        (va.byteOffsetOrZero == vb.byteOffsetOrZero)) = true
    · rw [if_pos hid]
    · rw [if_neg hid]
      rcases hrest with hid' | hptw
      · exact absurd (by simp [hid'.1, hid'.2]) hid
      · exact all_range_of_get?_eq hptw

theorem bufferEqual_refl (a : Option BufferSource) : bufferEqual a a = true := by
  cases a with
  | none => rfl
  | some v =>
    rw [bufferEqual_some_iff]
    exact ⟨rfl, .inl ⟨rfl, rfl⟩⟩

theorem bufferEqual_true_symm {va vb : BufferSource}
    (h : bufferEqual (some va) (some vb) = true) :
    bufferEqual (some vb) (some va) = true := by
  rw [bufferEqual_some_iff] at h ⊢
  obtain ⟨hlen, h⟩ := h
  refine ⟨hlen.symm, ?_⟩
  rcases h with ⟨h1, h2⟩ | hp
  · exact .inl ⟨h1.symm, h2.symm⟩
  · exact .inr fun i hi => (hp i (by omega)).symm

theorem bufferEqual_comm (a b : Option BufferSource) :
    bufferEqual a b = bufferEqual b a := by
  cases a <;> cases b <;> try rfl
  exact Bool.eq_iff_iff.mpr ⟨bufferEqual_true_symm, bufferEqual_true_symm⟩

theorem bufferEqual_iff_heap {va vb : BufferSource}
    (hba : ByteLevel va) (hbb : ByteLevel vb)
    (hcons : (unsafeGetArrayBuffer va).id = (unsafeGetArrayBuffer vb).id →
      unsafeGetArrayBuffer va = unsafeGetArrayBuffer vb) :
    bufferEqual (some va) (some vb) = true ↔
      va.byteLength = vb.byteLength ∧ va.bytesView = vb.bytesView := by
  rw [bufferEqual_some_iff]
  constructor
  · rintro ⟨hlen, h⟩
    refine ⟨hlen, ?_⟩
    rcases h with ⟨hid, hoff⟩ | hp
    · exact bytesView_same_buffer (hcons hid) hoff hlen
    · rw [uint8Array_of_byteLevel hba, uint8Array_of_byteLevel hbb] at hp
      exact list_eq_of_get?_eq (bytesView_length_le va)
        (hlen ▸ bytesView_length_le vb) hp
  · rintro ⟨hlen, hbytes⟩
    refine ⟨hlen, .inr fun i hi => ?_⟩
    rw [uint8Array_of_byteLevel hba, uint8Array_of_byteLevel hbb, hbytes]

/-- C9 (amended): restricted to byte-level sources (`ArrayBuffer`s and
`Uint8Array` views), `BufferUtils.equal` on a heap-consistent pair returns
true exactly when both are null or both are non-null with equal byte
lengths and equal visible bytes; and on all buffer sources — wider typed
arrays and `DataView`s included — it remains total, reflexive and
symmetric, and returns true for two sources over the same buffer at the
same byte offset with equal byte lengths. (The byte-equality reading is
false on wider typed arrays, where `new Uint8Array(view)` converts
elements instead of reading bytes; see the counterexample.) -/
theorem claim_C9 :
    (∀ a b : Option BufferSource, ByteLevelSrc a → ByteLevelSrc b →
      HeapOK a b → (bufferEqual a b = true ↔ EqualSpec a b)) ∧
    (∀ a : Option BufferSource, bufferEqual a a = true) ∧
    (∀ a b : Option BufferSource, bufferEqual a b = bufferEqual b a) ∧
    (∀ va vb : BufferSource,
      (unsafeGetArrayBuffer va).id = (unsafeGetArrayBuffer vb).id →
      va.byteOffsetOrZero = vb.byteOffsetOrZero →
      va.byteLength = vb.byteLength →
      bufferEqual (some va) (some vb) = true) := by
  refine ⟨?_, bufferEqual_refl, bufferEqual_comm,
    fun va vb hid hoff hlen =>
      (bufferEqual_some_iff va vb).mpr ⟨hlen, .inl ⟨hid, hoff⟩⟩⟩
  intro a b hba hbb hheap
  cases a with
  | none =>
    cases b with
    | none => simp [bufferEqual, EqualSpec]
    | some vb => simp [bufferEqual, EqualSpec]
  | some va =>
    cases b with
    | none => simp [bufferEqual, EqualSpec]
    | some vb =>
      rw [bufferEqual_iff_heap (hba va rfl) (hbb vb rfl) (hheap va vb rfl rfl)]
      simp [EqualSpec]

/-- C9 counterexample: on the full `BufferSource` domain the claimed
characterisation is false in both directions. Two well-formed, heap-
consistent `Uint16Array` views (as in `Uint16Array([0x0100])` versus
`Uint16Array([0x0200])`) compare equal although their underlying bytes
differ, because `new Uint8Array` keeps only each element mod 256 and the
out-of-range tail of the loop compares `undefined` with `undefined`; and a
`Uint8Array` over bytes 0,1 compares unequal to a `Uint16Array([256])`
over the same bytes although the visible bytes agree. -/
theorem claim_C9_counterexample :
    (BufferSource.typedView ⟨0, [0, 1]⟩ 0 2 [256]).WF ∧
    (BufferSource.typedView ⟨1, [0, 2]⟩ 0 2 [512]).WF ∧
    HeapOK (some (.typedView ⟨0, [0, 1]⟩ 0 2 [256]))
      (some (.typedView ⟨1, [0, 2]⟩ 0 2 [512])) ∧
    (BufferSource.typedView ⟨0, [0, 1]⟩ 0 2 [256]).byteLength =
      (BufferSource.typedView ⟨1, [0, 2]⟩ 0 2 [512]).byteLength ∧
    bufferEqual (some (.typedView ⟨0, [0, 1]⟩ 0 2 [256]))
      (some (.typedView ⟨1, [0, 2]⟩ 0 2 [512])) = true ∧
    (BufferSource.typedView ⟨0, [0, 1]⟩ 0 2 [256]).bytesView ≠
      (BufferSource.typedView ⟨1, [0, 2]⟩ 0 2 [512]).bytesView ∧
    (BufferSource.uint8View ⟨2, [0, 1]⟩ 0 2).WF ∧
    (BufferSource.typedView ⟨3, [0, 1]⟩ 0 2 [256]).WF ∧
    bufferEqual (some (.uint8View ⟨2, [0, 1]⟩ 0 2))
      (some (.typedView ⟨3, [0, 1]⟩ 0 2 [256])) = false ∧
    (BufferSource.uint8View ⟨2, [0, 1]⟩ 0 2).bytesView =
      (BufferSource.typedView ⟨3, [0, 1]⟩ 0 2 [256]).bytesView := by
  refine ⟨by decide, by decide, ?_, by decide, by decide, by decide,
    by decide, by decide, by decide, by decide⟩
  intro v1 v2 h1 h2 hid
  injection h1 with e1
  injection h2 with e2
  subst e1
  subst e2
  exact absurd hid (by decide)

theorem claim_C9_witness :
    (ByteLevelSrc (some (.uint8View ⟨0, [1, 2, 3]⟩ 1 2)) ∧
      ByteLevelSrc (some (.uint8View ⟨1, [9, 2, 3]⟩ 1 2)) ∧
      HeapOK (some (.uint8View ⟨0, [1, 2, 3]⟩ 1 2))
        (some (.uint8View ⟨1, [9, 2, 3]⟩ 1 2))) ∧
    (bufferEqual (some (.uint8View ⟨0, [1, 2, 3]⟩ 1 2))
        (some (.uint8View ⟨1, [9, 2, 3]⟩ 1 2)) = true ↔
      EqualSpec (some (.uint8View ⟨0, [1, 2, 3]⟩ 1 2))
        (some (.uint8View ⟨1, [9, 2, 3]⟩ 1 2))) ∧
    bufferEqual (some (.typedView ⟨4, [0, 1]⟩ 0 2 [256]))
      (some (.typedView ⟨4, [0, 1]⟩ 0 2 [256])) = true :=
  have hba : ByteLevelSrc (some (.uint8View ⟨0, [1, 2, 3]⟩ 1 2)) := by
    intro v h
    injection h with e
    subst e
    trivial
  have hbb : ByteLevelSrc (some (.uint8View ⟨1, [9, 2, 3]⟩ 1 2)) := by
    intro v h
    injection h with e
    subst e
    trivial
  have hheap : HeapOK (some (.uint8View ⟨0, [1, 2, 3]⟩ 1 2))
      (some (.uint8View ⟨1, [9, 2, 3]⟩ 1 2)) := by
    intro v1 v2 h1 h2 hid
    injection h1 with e1
    injection h2 with e2
    subst e1
    subst e2
    exact absurd hid (by decide)
  ⟨⟨hba, hbb, hheap⟩, claim_C9.1 _ _ hba hbb hheap,
    claim_C9.2.2.2 (.typedView ⟨4, [0, 1]⟩ 0 2 [256])
      (.typedView ⟨4, [0, 1]⟩ 0 2 [256]) rfl rfl rfl⟩

theorem toArrayBuffer_full {v : BufferSource} (h0 : v.byteOffsetOrZero = 0)
    (hfull : v.byteLength = (unsafeGetArrayBuffer v).data.length) :
    toArrayBuffer v = .reused (unsafeGetArrayBuffer v) := by
  cases v with
  | arrayBuffer buf => rfl
  | uint8View buf off len =>
    simp only [BufferSource.byteOffsetOrZero] at h0
    simp only [BufferSource.byteLength, unsafeGetArrayBuffer] at hfull
    simp [toArrayBuffer, unsafeGetArrayBuffer, h0, hfull]
  | typedView buf off k elems =>
    simp only [BufferSource.byteOffsetOrZero] at h0
    simp only [BufferSource.byteLength, unsafeGetArrayBuffer] at hfull
    simp [toArrayBuffer, unsafeGetArrayBuffer, h0, hfull]
  | dataView buf off len =>
    simp only [BufferSource.byteOffsetOrZero] at h0
    simp only [BufferSource.byteLength, unsafeGetArrayBuffer] at hfull
    simp [toArrayBuffer, unsafeGetArrayBuffer, h0, hfull]

theorem toArrayBuffer_copy {v : BufferSource}
    (hno : ¬(v.byteOffsetOrZero = 0 ∧
      v.byteLength = (unsafeGetArrayBuffer v).data.length)) :
    toArrayBuffer v = .fresh v.uint8Array := by
  cases v with
  | arrayBuffer buf => exact absurd ⟨rfl, rfl⟩ hno
  | uint8View buf off len =>
    simp only [BufferSource.byteOffsetOrZero, BufferSource.byteLength,
      unsafeGetArrayBuffer] at hno
    simp only [toArrayBuffer, BufferSource.uint8Array]
    rw [if_neg (by simp only [Bool.and_eq_true, beq_iff_eq]; exact hno)]
  | typedView buf off k elems =>
    simp only [BufferSource.byteOffsetOrZero, BufferSource.byteLength,
      unsafeGetArrayBuffer] at hno
    simp only [toArrayBuffer, BufferSource.uint8Array]
    rw [if_neg (by simp only [Bool.and_eq_true, beq_iff_eq]; exact hno)]
  | dataView buf off len =>
    simp only [BufferSource.byteOffsetOrZero, BufferSource.byteLength,
      unsafeGetArrayBuffer] at hno
    simp only [toArrayBuffer, BufferSource.uint8Array]
    rw [if_neg (by simp only [Bool.and_eq_true, beq_iff_eq]; exact hno)]

theorem toArrayBuffer_bytes_full {v : BufferSource}
    (h0 : v.byteOffsetOrZero = 0)
    (hfull : v.byteLength = (unsafeGetArrayBuffer v).data.length) :
    (toArrayBuffer v).bytes = v.bytesView := by
  rw [toArrayBuffer_full h0 hfull, bytesView_eq, h0, hfull]
  simp [ABResult.bytes]

theorem toArrayBuffer_bytes_byteLevel {v : BufferSource} (hb : ByteLevel v) :
    (toArrayBuffer v).bytes = v.bytesView := by
  by_cases hfull : v.byteOffsetOrZero = 0 ∧
      v.byteLength = (unsafeGetArrayBuffer v).data.length
  · exact toArrayBuffer_bytes_full hfull.1 hfull.2
  · rw [toArrayBuffer_copy hfull]
    exact uint8Array_of_byteLevel hb

/-- C10 (amended): `BufferUtils.toArrayBuffer` returns the very same
underlying `ArrayBuffer` object — whose contents are then exactly the
viewed bytes — when the input is an `ArrayBuffer` or any view at byte
offset 0 covering its whole buffer; any other view yields a newly
allocated buffer holding the output of `new Uint8Array(view)`, which
equals the viewed bytes for byte-level (Uint8) views. (For a partial
wider typed array or `DataView` that fresh copy does not hold the viewed
bytes; see the counterexample.) -/
theorem claim_C10 : ∀ v : BufferSource,
    (∀ buf, v = .arrayBuffer buf → toArrayBuffer v = .reused buf) ∧
    (v.byteOffsetOrZero = 0 →
      v.byteLength = (unsafeGetArrayBuffer v).data.length →
      toArrayBuffer v = .reused (unsafeGetArrayBuffer v) ∧
      (toArrayBuffer v).bytes = v.bytesView) ∧
    (ByteLevel v → (toArrayBuffer v).bytes = v.bytesView) ∧
    (¬(v.byteOffsetOrZero = 0 ∧
        v.byteLength = (unsafeGetArrayBuffer v).data.length) →
      toArrayBuffer v = .fresh v.uint8Array) := by
  intro v
  refine ⟨fun buf h => ?_,
    fun h0 hfull => ⟨toArrayBuffer_full h0 hfull, toArrayBuffer_bytes_full h0 hfull⟩,
    toArrayBuffer_bytes_byteLevel, toArrayBuffer_copy⟩
  subst h
  rfl

/-- C10 counterexample: on the full `BufferSource` domain the claimed
"byte contents equal the bytes visible through the input view" is false: a
partial `Uint16Array` view (here over bytes 1,2 of a 3-byte buffer, one
element `0x0201`) yields a fresh buffer holding the single converted
element 1 rather than the viewed bytes 1,2; and a partial `DataView`
yields an empty fresh buffer. -/
theorem claim_C10_counterexample :
    (BufferSource.typedView ⟨0, [1, 2, 9]⟩ 0 2 [513]).WF ∧
    (toArrayBuffer (.typedView ⟨0, [1, 2, 9]⟩ 0 2 [513])).bytes = [1] ∧
    (BufferSource.typedView ⟨0, [1, 2, 9]⟩ 0 2 [513]).bytesView = [1, 2] ∧
    (toArrayBuffer (.typedView ⟨0, [1, 2, 9]⟩ 0 2 [513])).bytes ≠
      (BufferSource.typedView ⟨0, [1, 2, 9]⟩ 0 2 [513]).bytesView ∧
    (BufferSource.dataView ⟨1, [5, 6, 7]⟩ 0 2).WF ∧
    (toArrayBuffer (.dataView ⟨1, [5, 6, 7]⟩ 0 2)).bytes = [] ∧
    (toArrayBuffer (.dataView ⟨1, [5, 6, 7]⟩ 0 2)).bytes ≠
      (BufferSource.dataView ⟨1, [5, 6, 7]⟩ 0 2).bytesView := by
  refine ⟨by decide, by decide, by decide, by decide, by decide,
    by decide, by decide⟩

theorem claim_C10_witness :
    toArrayBuffer (.arrayBuffer ⟨2, [8]⟩) = .reused ⟨2, [8]⟩ ∧
    (toArrayBuffer (.typedView ⟨9, [0, 1]⟩ 0 2 [256]) =
        .reused (unsafeGetArrayBuffer (.typedView ⟨9, [0, 1]⟩ 0 2 [256])) ∧
      (toArrayBuffer (.typedView ⟨9, [0, 1]⟩ 0 2 [256])).bytes =
        (BufferSource.typedView ⟨9, [0, 1]⟩ 0 2 [256]).bytesView) ∧
    (toArrayBuffer (.uint8View ⟨0, [1, 2, 3]⟩ 1 1)).bytes =
      (BufferSource.uint8View ⟨0, [1, 2, 3]⟩ 1 1).bytesView ∧
    toArrayBuffer (.uint8View ⟨0, [1, 2, 3]⟩ 1 1) =
      .fresh (BufferSource.uint8View ⟨0, [1, 2, 3]⟩ 1 1).uint8Array :=
  ⟨(claim_C10 _).1 _ rfl,
    (claim_C10 (.typedView ⟨9, [0, 1]⟩ 0 2 [256])).2.1 rfl rfl,
    (claim_C10 (.uint8View ⟨0, [1, 2, 3]⟩ 1 1)).2.2.1 trivial,
    (claim_C10 (.uint8View ⟨0, [1, 2, 3]⟩ 1 1)).2.2.2 (by decide)⟩

end Shaka
